import Mathlib

/-!
Verification of the RSSM rollout (`TransitionModel.forward`), the squashed
policy distribution (`ActionModel.forward`) and the Monte-Carlo approximator
(`SampleDist`) of `models.py`.

The tensor library is shallowly embedded: a tensor row is a `List α` over a
commutative-ring scalar type (instantiated at `ℝ` where transcendental
functions matter and at `Int`/`ℚ` for executable witnesses); batched
operations are modelled per batch element; the reparameterization noise that
`torch.randn_like` draws is passed in explicitly as per-step noise vectors;
`torch.stack`, which raises on an empty tensor list, is modelled in the
`Except` monad.  The linear layers, the GRU cell and the pointwise activation
are opaque functions bundled in a parameter structure, exactly as the source
treats them (their internals are out of scope per the spec).
-/

namespace Models

/-- `torch.chunk(x, 2, dim=1)`: split a row into two chunks; the first chunk
has size `⌈n/2⌉`, matching torch's chunking rule. -/
def chunk2 {α : Type} (l : List α) : List α × List α :=
  (l.take ((l.length + 1) / 2), l.drop ((l.length + 1) / 2))

/-- `torch.stack` on a list of tensors: raises on an empty tensor list,
otherwise stacks (here: returns the list of rows). -/
def stack {β : Type} (l : List β) : Except String (List β) :=
  match l with
  | [] => Except.error "stack expects a non-empty TensorList"
  | xs => Except.ok xs

/-- Elementwise tensor addition. -/
def vadd {α : Type} [Add α] (a b : List α) : List α := List.zipWith (· + ·) a b

/-- Elementwise tensor multiplication. -/
def vmul {α : Type} [Mul α] (a b : List α) : List α := List.zipWith (· * ·) a b

/-- The parameters of `TransitionModel`: the linear layers, the GRU cell,
the activation, the softplus primitive and the stddev floor, as configured
in `TransitionModel.__init__`. -/
structure TMParams (α : Type) where
  fc_embed_state_action : List α → List α
  rnn : List α → List α → List α
  fc_embed_belief_prior : List α → List α
  fc_state_prior : List α → List α
  fc_embed_belief_posterior : List α → List α
  fc_state_posterior : List α → List α
  act_fn : List α → List α
  softplus : α → α
  min_std_dev : α

/-- The seven slot lists built by `TransitionModel.forward`; slot `t` of each
list is the value written at index `t` of the corresponding Python list
(`torch.empty(0)` placeholders are `[]`). -/
structure RolloutState (α : Type) where
  beliefs : List (List α)
  prior_states : List (List α)
  prior_means : List (List α)
  prior_std_devs : List (List α)
  posterior_states : List (List α)
  posterior_means : List (List α)
  posterior_std_devs : List (List α)

/-- Line 58 of the source: `_state = prior_states[t] if observations is None
else posterior_states[t]`. -/
def selectedState {α : Type} (observations : Option (Nat → List α))
    (s : RolloutState α) (t : Nat) : List α :=
  match observations with
  | none => s.prior_states.getD t []
  | some _ => s.posterior_states.getD t []

/-- Line 59 of the source: `_state = _state if nonterminals is None else
_state * nonterminals[t]` — the per-batch-element mask multiplies the state
row elementwise by the scalar mask entry. -/
def maskedState {α : Type} [Mul α] (nonterminals : Option (Nat → α))
    (t : Nat) (st : List α) : List α :=
  match nonterminals with
  | none => st
  | some n => st.map (fun x => x * n t)

/-- Line 72 of the source: `t_ = t - 1`, then line 73 indexes
`observations[t_ + 1]`.  Python integer arithmetic is `Int` arithmetic, so
this is the index actually used. -/
def obsIndexUsed (t : Nat) : Nat := (((t : Int) - 1) + 1).toNat

/-- Lines 62-63 of the source: embed masked state and action, apply the
activation, and run the GRU cell on the previous belief to get the new
belief at slot `t + 1`. -/
def newBelief {α : Type} [Mul α] (p : TMParams α) (actions : List (List α))
    (observations : Option (Nat → List α)) (nonterminals : Option (Nat → α))
    (t : Nat) (s : RolloutState α) : List α :=
  p.rnn (p.act_fn (p.fc_embed_state_action
    (maskedState nonterminals t (selectedState observations s t) ++ actions.getD t [])))
    (s.beliefs.getD t [])

/-- Lines 65-66 of the source: prior mean and raw stddev from the new belief. -/
def priorParams {α : Type} (p : TMParams α) (nb : List α) : List α × List α :=
  chunk2 (p.fc_state_prior (p.act_fn (p.fc_embed_belief_prior nb)))

/-- One iteration of the loop body of `TransitionModel.forward`
(lines 57-76): writes slot `t + 1` of every list.  When `observations` is
`None` the posterior slots keep their `torch.empty(0)` placeholder. -/
def step {α : Type} [CommRing α] (p : TMParams α) (actions : List (List α))
    (observations : Option (Nat → List α)) (nonterminals : Option (Nat → α))
    (noiseP noiseQ : Nat → List α) (t : Nat) (s : RolloutState α) : RolloutState α :=
  let nb := newBelief p actions observations nonterminals t s
  let pp := priorParams p nb
  let p_std := pp.2.map (fun x => p.softplus x + p.min_std_dev)
  let p_state := vadd pp.1 (vmul p_std (noiseP t))
  match observations with
  | none =>
      { beliefs := s.beliefs ++ [nb]
        prior_states := s.prior_states ++ [p_state]
        prior_means := s.prior_means ++ [pp.1]
        prior_std_devs := s.prior_std_devs ++ [p_std]
        posterior_states := s.posterior_states ++ [[]]
        posterior_means := s.posterior_means ++ [[]]
        posterior_std_devs := s.posterior_std_devs ++ [[]] }
  | some o =>
      let q := chunk2 (p.fc_state_posterior (p.act_fn (p.fc_embed_belief_posterior
        (nb ++ o (obsIndexUsed t)))))
      let q_std := q.2.map (fun x => p.softplus x + p.min_std_dev)
      let q_state := vadd q.1 (vmul q_std (noiseQ t))
      { beliefs := s.beliefs ++ [nb]
        prior_states := s.prior_states ++ [p_state]
        prior_means := s.prior_means ++ [pp.1]
        prior_std_devs := s.prior_std_devs ++ [p_std]
        posterior_states := s.posterior_states ++ [q_state]
        posterior_means := s.posterior_means ++ [q.1]
        posterior_std_devs := s.posterior_std_devs ++ [q_std] }

/-- Line 54-55 of the source: all slot lists start as `torch.empty(0)`
placeholders, then slot 0 of beliefs / prior states / posterior states is
seeded with the given initial belief and state. -/
def initState {α : Type} (prev_state prev_belief : List α) : RolloutState α :=
  { beliefs := [prev_belief]
    prior_states := [prev_state]
    prior_means := [[]]
    prior_std_devs := [[]]
    posterior_states := [prev_state]
    posterior_means := [[]]
    posterior_std_devs := [[]] }

/-- `for t in range(n)` executing a state-updating body in order
`t = 0, 1, …, n - 1`. -/
def runLoop {σ : Type} (f : Nat → σ → σ) : Nat → σ → σ
  | 0, s => s
  | n + 1, s => f n (runLoop f n s)

/-- The loop of `TransitionModel.forward`: `T = actions.size(0) + 1`
iterations `t = 0 .. T - 2` of the body, from the seeded slot lists. -/
def rolloutLists {α : Type} [CommRing α] (p : TMParams α) (prev_state : List α)
    (actions : List (List α)) (prev_belief : List α)
    (observations : Option (Nat → List α)) (nonterminals : Option (Nat → α))
    (noiseP noiseQ : Nat → List α) : RolloutState α :=
  runLoop (step p actions observations nonterminals noiseP noiseQ)
    actions.length (initState prev_state prev_belief)

/-- `TransitionModel.forward` (lines 50-82): run the loop, then stack each
slot list from slot 1 on (`torch.stack(xs[1:])`, which raises when the
sliced list is empty); posterior fields are stacked and appended only when
observations were supplied. -/
def forward {α : Type} [CommRing α] (p : TMParams α) (prev_state : List α)
    (actions : List (List α)) (prev_belief : List α)
    (observations : Option (Nat → List α)) (nonterminals : Option (Nat → α))
    (noiseP noiseQ : Nat → List α) : Except String (List (List (List α))) := do
  let s := rolloutLists p prev_state actions prev_belief observations nonterminals noiseP noiseQ
  let bs ← stack (s.beliefs.drop 1)
  let ps ← stack (s.prior_states.drop 1)
  let pm ← stack (s.prior_means.drop 1)
  let psd ← stack (s.prior_std_devs.drop 1)
  match observations with
  | none => pure [bs, ps, pm, psd]
  | some _ => do
      let qs ← stack (s.posterior_states.drop 1)
      let qm ← stack (s.posterior_means.drop 1)
      let qsd ← stack (s.posterior_std_devs.drop 1)
      pure [bs, ps, pm, psd, qs, qm, qsd]

/-- With an empty action sequence (`T = 1`) the loop never runs, the sliced
slot lists are empty, and the first `torch.stack` raises. -/
theorem forward_nil {α : Type} [CommRing α] (p : TMParams α)
    (prev_state prev_belief : List α) (observations : Option (Nat → List α))
    (nonterminals : Option (Nat → α)) (noiseP noiseQ : Nat → List α) :
    forward p prev_state [] prev_belief observations nonterminals noiseP noiseQ
      = Except.error "stack expects a non-empty TensorList" := rfl

/-- A concrete transition model over `Int` scalars, used to evaluate the
rollout on closed inputs. -/
def tmInt : TMParams Int :=
  { fc_embed_state_action := fun _ => [0]
    rnn := fun _ _ => [0]
    fc_embed_belief_prior := fun _ => [0]
    fc_state_prior := fun _ => [0, 0]
    fc_embed_belief_posterior := fun _ => [0]
    fc_state_posterior := fun _ => [0, 0]
    act_fn := fun l => l
    softplus := fun x => x
    min_std_dev := 0 }

/-- Claim C1 (counterexample): at the concrete input `T = 1` (empty action
sequence) over `Int` scalars, `TransitionModel.forward` does not return
length-0 output sequences — it fails with the error `torch.stack` raises for
an empty tensor list, refuting "returns, without error, sequences of
length 0". -/
theorem claim_C1_counterexample :
    forward tmInt [0] [] [0] none none (fun _ => [0]) (fun _ => [0])
      = Except.error "stack expects a non-empty TensorList" := rfl

/-- Claim C1 (amended): for every rollout invocation with `T = 1` (an empty
action sequence), the loop body never executes, but the operation does not
return empty output sequences: slicing off the seed slot leaves empty lists
and the first `torch.stack` raises "stack expects a non-empty TensorList",
regardless of the other inputs. -/
theorem claim_C1 {α : Type} [CommRing α] (p : TMParams α)
    (prev_state prev_belief : List α) (observations : Option (Nat → List α))
    (nonterminals : Option (Nat → α)) (noiseP noiseQ : Nat → List α) :
    forward p prev_state [] prev_belief observations nonterminals noiseP noiseQ
      = Except.error "stack expects a non-empty TensorList" :=
  forward_nil p prev_state prev_belief observations nonterminals noiseP noiseQ

/-- Claim C2: at loop iteration `t` (0-indexed, producing output slot
`t + 1`), the observation index actually used — `observations[t_ + 1]` with
`t_ = t - 1` — equals `t`, and the posterior parameters written at slot
`t + 1` are derived from the concatenation of the newly computed belief at
slot `t + 1` with the observation embedding at sequence index `t`. -/
theorem claim_C2 {α : Type} [CommRing α] (p : TMParams α)
    (actions : List (List α)) (o : Nat → List α) (nonterminals : Option (Nat → α))
    (noiseP noiseQ : Nat → List α) (t : Nat) (s : RolloutState α) :
    obsIndexUsed t = t
    ∧ (step p actions (some o) nonterminals noiseP noiseQ t s).posterior_means
        = s.posterior_means
          ++ [(chunk2 (p.fc_state_posterior (p.act_fn (p.fc_embed_belief_posterior
                (newBelief p actions (some o) nonterminals t s ++ o t))))).1] := by
  have hidx : obsIndexUsed t = t := by
    unfold obsIndexUsed
    omega
  refine ⟨hidx, ?_⟩
  simp only [step, hidx]

/-- One loop iteration extends every slot list by exactly one slot. -/
theorem step_lengths {α : Type} [CommRing α] (p : TMParams α)
    (actions : List (List α)) (observations : Option (Nat → List α))
    (nonterminals : Option (Nat → α)) (noiseP noiseQ : Nat → List α)
    (t : Nat) (s : RolloutState α) :
    (step p actions observations nonterminals noiseP noiseQ t s).beliefs.length
        = s.beliefs.length + 1
    ∧ (step p actions observations nonterminals noiseP noiseQ t s).prior_states.length
        = s.prior_states.length + 1
    ∧ (step p actions observations nonterminals noiseP noiseQ t s).prior_means.length
        = s.prior_means.length + 1
    ∧ (step p actions observations nonterminals noiseP noiseQ t s).prior_std_devs.length
        = s.prior_std_devs.length + 1
    ∧ (step p actions observations nonterminals noiseP noiseQ t s).posterior_states.length
        = s.posterior_states.length + 1
    ∧ (step p actions observations nonterminals noiseP noiseQ t s).posterior_means.length
        = s.posterior_means.length + 1
    ∧ (step p actions observations nonterminals noiseP noiseQ t s).posterior_std_devs.length
        = s.posterior_std_devs.length + 1 := by
  cases observations <;> simp [step]

/-- After `n` loop iterations every slot list has grown by `n` slots. -/
theorem runLoop_lengths {α : Type} [CommRing α] (p : TMParams α)
    (actions : List (List α)) (observations : Option (Nat → List α))
    (nonterminals : Option (Nat → α)) (noiseP noiseQ : Nat → List α)
    (n : Nat) (s : RolloutState α) :
    (runLoop (step p actions observations nonterminals noiseP noiseQ) n s).beliefs.length
        = s.beliefs.length + n
    ∧ (runLoop (step p actions observations nonterminals noiseP noiseQ) n s).prior_states.length
        = s.prior_states.length + n
    ∧ (runLoop (step p actions observations nonterminals noiseP noiseQ) n s).prior_means.length
        = s.prior_means.length + n
    ∧ (runLoop (step p actions observations nonterminals noiseP noiseQ) n s).prior_std_devs.length
        = s.prior_std_devs.length + n
    ∧ (runLoop (step p actions observations nonterminals noiseP noiseQ) n s).posterior_states.length
        = s.posterior_states.length + n
    ∧ (runLoop (step p actions observations nonterminals noiseP noiseQ) n s).posterior_means.length
        = s.posterior_means.length + n
    ∧ (runLoop (step p actions observations nonterminals noiseP noiseQ) n s).posterior_std_devs.length
        = s.posterior_std_devs.length + n := by
  induction n with
  | zero => simp [runLoop]
  | succ m ih =>
      have hs := step_lengths p actions observations nonterminals noiseP noiseQ m
        (runLoop (step p actions observations nonterminals noiseP noiseQ) m s)
      simp only [runLoop]
      omega

/-- `torch.stack` on a non-empty tensor list succeeds and keeps the rows. -/
theorem stack_ne_nil {β : Type} (l : List β) (h : l ≠ []) : stack l = Except.ok l := by
  cases l with
  | nil => exact absurd rfl h
  | cons a as => rfl

/-- Sequencing after a successful stack continues with its rows. -/
theorem exceptBind_ok {ε β γ : Type} (a : β) (f : β → Except ε γ) :
    (Except.ok (ε := ε) a >>= f) = f a := rfl

/-- The slot lists produced by the rollout loop all have length
`actions.length + 1` (the seed slot plus one slot per action). -/
theorem rolloutLists_lengths {α : Type} [CommRing α] (p : TMParams α)
    (prev_state : List α) (actions : List (List α)) (prev_belief : List α)
    (observations : Option (Nat → List α)) (nonterminals : Option (Nat → α))
    (noiseP noiseQ : Nat → List α) :
    (rolloutLists p prev_state actions prev_belief observations nonterminals noiseP noiseQ).beliefs.length
        = actions.length + 1
    ∧ (rolloutLists p prev_state actions prev_belief observations nonterminals noiseP noiseQ).prior_states.length
        = actions.length + 1
    ∧ (rolloutLists p prev_state actions prev_belief observations nonterminals noiseP noiseQ).prior_means.length
        = actions.length + 1
    ∧ (rolloutLists p prev_state actions prev_belief observations nonterminals noiseP noiseQ).prior_std_devs.length
        = actions.length + 1
    ∧ (rolloutLists p prev_state actions prev_belief observations nonterminals noiseP noiseQ).posterior_states.length
        = actions.length + 1
    ∧ (rolloutLists p prev_state actions prev_belief observations nonterminals noiseP noiseQ).posterior_means.length
        = actions.length + 1
    ∧ (rolloutLists p prev_state actions prev_belief observations nonterminals noiseP noiseQ).posterior_std_devs.length
        = actions.length + 1 := by
  have h := runLoop_lengths p actions observations nonterminals noiseP noiseQ
    actions.length (initState prev_state prev_belief)
  simp only [rolloutLists, initState] at *
  simp only [List.length_singleton] at h
  omega

/-- On a non-empty action sequence and no observations, the rollout returns
the four prior fields, each the corresponding slot list without its seed. -/
theorem forward_eq_none {α : Type} [CommRing α] (p : TMParams α)
    (prev_state : List α) (actions : List (List α)) (prev_belief : List α)
    (nonterminals : Option (Nat → α)) (noiseP noiseQ : Nat → List α)
    (h : actions ≠ []) :
    forward p prev_state actions prev_belief none nonterminals noiseP noiseQ
      = Except.ok
          [(rolloutLists p prev_state actions prev_belief none nonterminals noiseP noiseQ).beliefs.drop 1,
           (rolloutLists p prev_state actions prev_belief none nonterminals noiseP noiseQ).prior_states.drop 1,
           (rolloutLists p prev_state actions prev_belief none nonterminals noiseP noiseQ).prior_means.drop 1,
           (rolloutLists p prev_state actions prev_belief none nonterminals noiseP noiseQ).prior_std_devs.drop 1] := by
  have hL := rolloutLists_lengths p prev_state actions prev_belief none nonterminals noiseP noiseQ
  have hpos : 0 < actions.length := List.length_pos.mpr h
  obtain ⟨h1, h2, h3, h4, _, _, _⟩ := hL
  have hb := stack_ne_nil
    ((rolloutLists p prev_state actions prev_belief none nonterminals noiseP noiseQ).beliefs.drop 1)
    (by apply List.ne_nil_of_length_pos; simp only [List.length_drop]; omega)
  have hp := stack_ne_nil
    ((rolloutLists p prev_state actions prev_belief none nonterminals noiseP noiseQ).prior_states.drop 1)
    (by apply List.ne_nil_of_length_pos; simp only [List.length_drop]; omega)
  have hm := stack_ne_nil
    ((rolloutLists p prev_state actions prev_belief none nonterminals noiseP noiseQ).prior_means.drop 1)
    (by apply List.ne_nil_of_length_pos; simp only [List.length_drop]; omega)
  have hsd := stack_ne_nil
    ((rolloutLists p prev_state actions prev_belief none nonterminals noiseP noiseQ).prior_std_devs.drop 1)
    (by apply List.ne_nil_of_length_pos; simp only [List.length_drop]; omega)
  simp only [forward]
  rw [hb, exceptBind_ok, hp, exceptBind_ok, hm, exceptBind_ok, hsd, exceptBind_ok]
  rfl

/-- On a non-empty action sequence with observations, the rollout returns
the four prior fields followed by the three posterior fields, each the
corresponding slot list without its seed. -/
theorem forward_eq_some {α : Type} [CommRing α] (p : TMParams α)
    (prev_state : List α) (actions : List (List α)) (prev_belief : List α)
    (o : Nat → List α) (nonterminals : Option (Nat → α)) (noiseP noiseQ : Nat → List α)
    (h : actions ≠ []) :
    forward p prev_state actions prev_belief (some o) nonterminals noiseP noiseQ
      = Except.ok
          [(rolloutLists p prev_state actions prev_belief (some o) nonterminals noiseP noiseQ).beliefs.drop 1,
           (rolloutLists p prev_state actions prev_belief (some o) nonterminals noiseP noiseQ).prior_states.drop 1,
           (rolloutLists p prev_state actions prev_belief (some o) nonterminals noiseP noiseQ).prior_means.drop 1,
           (rolloutLists p prev_state actions prev_belief (some o) nonterminals noiseP noiseQ).prior_std_devs.drop 1,
           (rolloutLists p prev_state actions prev_belief (some o) nonterminals noiseP noiseQ).posterior_states.drop 1,
           (rolloutLists p prev_state actions prev_belief (some o) nonterminals noiseP noiseQ).posterior_means.drop 1,
           (rolloutLists p prev_state actions prev_belief (some o) nonterminals noiseP noiseQ).posterior_std_devs.drop 1] := by
  have hL := rolloutLists_lengths p prev_state actions prev_belief (some o) nonterminals noiseP noiseQ
  have hpos : 0 < actions.length := List.length_pos.mpr h
  obtain ⟨h1, h2, h3, h4, h5, h6, h7⟩ := hL
  have hb := stack_ne_nil
    ((rolloutLists p prev_state actions prev_belief (some o) nonterminals noiseP noiseQ).beliefs.drop 1)
    (by apply List.ne_nil_of_length_pos; simp only [List.length_drop]; omega)
  have hp := stack_ne_nil
    ((rolloutLists p prev_state actions prev_belief (some o) nonterminals noiseP noiseQ).prior_states.drop 1)
    (by apply List.ne_nil_of_length_pos; simp only [List.length_drop]; omega)
  have hm := stack_ne_nil
    ((rolloutLists p prev_state actions prev_belief (some o) nonterminals noiseP noiseQ).prior_means.drop 1)
    (by apply List.ne_nil_of_length_pos; simp only [List.length_drop]; omega)
  have hsd := stack_ne_nil
    ((rolloutLists p prev_state actions prev_belief (some o) nonterminals noiseP noiseQ).prior_std_devs.drop 1)
    (by apply List.ne_nil_of_length_pos; simp only [List.length_drop]; omega)
  have hqs := stack_ne_nil
    ((rolloutLists p prev_state actions prev_belief (some o) nonterminals noiseP noiseQ).posterior_states.drop 1)
    (by apply List.ne_nil_of_length_pos; simp only [List.length_drop]; omega)
  have hqm := stack_ne_nil
    ((rolloutLists p prev_state actions prev_belief (some o) nonterminals noiseP noiseQ).posterior_means.drop 1)
    (by apply List.ne_nil_of_length_pos; simp only [List.length_drop]; omega)
  have hqsd := stack_ne_nil
    ((rolloutLists p prev_state actions prev_belief (some o) nonterminals noiseP noiseQ).posterior_std_devs.drop 1)
    (by apply List.ne_nil_of_length_pos; simp only [List.length_drop]; omega)
  simp only [forward]
  rw [hb, exceptBind_ok, hp, exceptBind_ok, hm, exceptBind_ok, hsd, exceptBind_ok]
  rw [hqs, exceptBind_ok, hqm, exceptBind_ok, hqsd, exceptBind_ok]
  rfl

/-- Claim C9: whenever the rollout returns output fields, every returned
sequence (belief, prior state, prior mean, prior stddev, and the posterior
fields when observations are supplied) has length exactly the length of the
action sequence: only slots `1 .. T - 1` are emitted, the seed slot never. -/
theorem claim_C9 {α : Type} [CommRing α] (p : TMParams α) (prev_state : List α)
    (actions : List (List α)) (prev_belief : List α)
    (observations : Option (Nat → List α)) (nonterminals : Option (Nat → α))
    (noiseP noiseQ : Nat → List α) (out : List (List (List α)))
    (h : forward p prev_state actions prev_belief observations nonterminals noiseP noiseQ
          = Except.ok out) :
    ∀ field ∈ out, field.length = actions.length := by
  rcases eq_or_ne actions [] with hA | hA
  · subst hA
    rw [forward_nil] at h
    exact absurd h (by simp)
  · have hL := rolloutLists_lengths p prev_state actions prev_belief observations
      nonterminals noiseP noiseQ
    obtain ⟨h1, h2, h3, h4, h5, h6, h7⟩ := hL
    cases observations with
    | none =>
        rw [forward_eq_none p prev_state actions prev_belief nonterminals noiseP noiseQ hA] at h
        cases h
        intro field hf
        simp only [List.mem_cons, List.not_mem_nil, or_false] at hf
        rcases hf with rfl | rfl | rfl | rfl <;> simp only [List.length_drop] <;> omega
    | some o =>
        rw [forward_eq_some p prev_state actions prev_belief o nonterminals noiseP noiseQ hA] at h
        cases h
        intro field hf
        simp only [List.mem_cons, List.not_mem_nil, or_false] at hf
        rcases hf with rfl | rfl | rfl | rfl | rfl | rfl | rfl <;>
          simp only [List.length_drop] <;> omega

/-- Claim C9 witness: in a concrete one-action rollout over `Int`, the
returned belief field has length 1, the length of the action sequence. -/
theorem claim_C9_witness : ([[(0 : Int)]] : List (List Int)).length = 1 :=
  claim_C9 tmInt [0] [[0]] [0] none none (fun _ => [0]) (fun _ => [0])
    [[[0]], [[0]], [[0]], [[0]]] (by rfl) [[0]] (by decide)

/-- Masking with an all-ones nonterminal entry leaves the state unchanged. -/
theorem maskedState_ones {α : Type} [CommRing α] (n : Nat → α) (h : ∀ t, n t = 1)
    (t : Nat) (st : List α) : maskedState (some n) t st = st := by
  simp [maskedState, h]

/-- The new belief does not depend on an all-ones mask. -/
theorem newBelief_ones {α : Type} [CommRing α] (p : TMParams α)
    (actions : List (List α)) (observations : Option (Nat → List α))
    (n : Nat → α) (h : ∀ t, n t = 1) (t : Nat) (s : RolloutState α) :
    newBelief p actions observations (some n) t s
      = newBelief p actions observations none t s := by
  simp only [newBelief, maskedState_ones n h]
  rfl

/-- One loop iteration does not depend on an all-ones mask. -/
theorem step_ones {α : Type} [CommRing α] (p : TMParams α) (actions : List (List α))
    (observations : Option (Nat → List α)) (n : Nat → α) (h : ∀ t, n t = 1)
    (noiseP noiseQ : Nat → List α) (t : Nat) (s : RolloutState α) :
    step p actions observations (some n) noiseP noiseQ t s
      = step p actions observations none noiseP noiseQ t s := by
  cases observations <;>
    simp only [step, newBelief_ones p actions _ n h]

/-- Loops with pointwise-equal bodies compute the same state. -/
theorem runLoop_congr {σ : Type} (f g : Nat → σ → σ) (h : ∀ t s, f t s = g t s) :
    ∀ n s, runLoop f n s = runLoop g n s := by
  intro n
  induction n with
  | zero => intro s; rfl
  | succ m ih => intro s; simp only [runLoop, ih s, h]

/-- Claim C5: running the rollout with a nonterminal mask consisting
entirely of ones produces output identical to running it with no mask
supplied, for identical other inputs and identical noise draws. -/
theorem claim_C5 {α : Type} [CommRing α] (p : TMParams α) (prev_state : List α)
    (actions : List (List α)) (prev_belief : List α)
    (observations : Option (Nat → List α)) (noiseP noiseQ : Nat → List α)
    (n : Nat → α) (h : ∀ t, n t = 1) :
    forward p prev_state actions prev_belief observations (some n) noiseP noiseQ
      = forward p prev_state actions prev_belief observations none noiseP noiseQ := by
  have hr : rolloutLists p prev_state actions prev_belief observations (some n) noiseP noiseQ
      = rolloutLists p prev_state actions prev_belief observations none noiseP noiseQ := by
    unfold rolloutLists
    exact runLoop_congr _ _
      (step_ones p actions observations n h noiseP noiseQ) _ _
  simp only [forward, hr]

/-- Claim C5 witness: a concrete one-action rollout over `Int` with the
all-ones mask equals the same rollout with no mask. -/
theorem claim_C5_witness :
    forward tmInt [2] [[3]] [4] none (some (fun _ => 1)) (fun _ => [1]) (fun _ => [1])
      = forward tmInt [2] [[3]] [4] none none (fun _ => [1]) (fun _ => [1]) :=
  claim_C5 tmInt [2] [[3]] [4] none (fun _ => [1]) (fun _ => [1])
    (fun _ => 1) (fun _ => rfl)

/-- Mapping every element to zero is the zero vector of the same length. -/
theorem map_zero_eq_replicate {α : Type} [CommRing α] (st : List α) :
    st.map (fun _ => (0 : α)) = List.replicate st.length 0 := by
  induction st with
  | nil => rfl
  | cons a l ih => simp [List.replicate, ih]

/-- Masking with a zero nonterminal entry yields the zero vector. -/
theorem maskedState_zero {α : Type} [CommRing α] (n : Nat → α) (t : Nat)
    (h : n t = 0) (st : List α) :
    maskedState (some n) t st = List.replicate st.length 0 := by
  simp only [maskedState, h, mul_zero]
  exact map_zero_eq_replicate st

/-- Claim C6: at a rollout step whose nonterminal mask entry is zero, the
previous-state vector fed into the single-timestep dynamics is the zero
vector regardless of the actual previous state value, while the belief
carried into the recurrence (`beliefs[t]`) is passed unmasked. -/
theorem claim_C6 {α : Type} [CommRing α] (p : TMParams α) (actions : List (List α))
    (observations : Option (Nat → List α)) (n : Nat → α)
    (noiseP noiseQ : Nat → List α) (t : Nat) (s : RolloutState α) (st : List α)
    (h : n t = 0) :
    maskedState (some n) t st = List.replicate st.length 0
    ∧ (step p actions observations (some n) noiseP noiseQ t s).beliefs
        = s.beliefs
          ++ [p.rnn (p.act_fn (p.fc_embed_state_action
                (List.replicate (selectedState observations s t).length 0
                  ++ actions.getD t [])))
              (s.beliefs.getD t [])] := by
  refine ⟨maskedState_zero n t h st, ?_⟩
  cases observations <;>
    simp only [step, newBelief, maskedState_zero n t h]

/-- Claim C6 witness: a concrete masked step over `Int` with mask entry 0
feeds the zero vector into the dynamics and the unmasked belief into the
recurrence. -/
theorem claim_C6_witness :
    maskedState (some (fun _ => (0 : Int))) 0 [5] = List.replicate ([5] : List Int).length 0
    ∧ (step tmInt [[3]] none (some (fun _ => 0)) (fun _ => [1]) (fun _ => [1]) 0
          (initState [7] [9])).beliefs
        = (initState ([7] : List Int) [9]).beliefs
          ++ [tmInt.rnn (tmInt.act_fn (tmInt.fc_embed_state_action
                (List.replicate (selectedState none (initState ([7] : List Int) [9]) 0).length 0
                  ++ ([[3]] : List (List Int)).getD 0 [])))
              ((initState ([7] : List Int) [9]).beliefs.getD 0 [])] :=
  claim_C6 tmInt [[3]] none (fun _ => 0) (fun _ => [1]) (fun _ => [1]) 0
    (initState [7] [9]) [5] rfl

noncomputable section

/-- `F.softplus` over the reals: `softplus x = log (1 + exp x)`. -/
def softplusR (x : ℝ) : ℝ := Real.log (1 + Real.exp x)

/-- Softplus is nonnegative, so adding the configured floor keeps every
stddev at or above that floor. -/
theorem softplusR_nonneg (x : ℝ) : 0 ≤ softplusR x := by
  unfold softplusR
  apply Real.log_nonneg
  have := Real.exp_pos x
  linarith

/-- A loop-body invariant survives the whole loop. -/
theorem runLoop_inv {σ : Type} (P : σ → Prop) (f : Nat → σ → σ)
    (hstep : ∀ t s, P s → P (f t s)) : ∀ n s, P s → P (runLoop f n s) := by
  intro n
  induction n with
  | zero => intro s hs; exact hs
  | succ m ih => intro s hs; exact hstep m _ (ih s hs)

/-- One loop iteration preserves the stddev-floor invariant: the appended
prior and posterior stddev rows are `softplus` outputs plus the floor. -/
theorem step_stdFloor (p : TMParams ℝ) (hp : p.softplus = softplusR)
    (actions : List (List ℝ)) (observations : Option (Nat → List ℝ))
    (nonterminals : Option (Nat → ℝ)) (noiseP noiseQ : Nat → List ℝ)
    (t : Nat) (s : RolloutState ℝ)
    (h1 : ∀ l ∈ s.prior_std_devs, ∀ x ∈ l, p.min_std_dev ≤ x)
    (h2 : ∀ l ∈ s.posterior_std_devs, ∀ x ∈ l, p.min_std_dev ≤ x) :
    (∀ l ∈ (step p actions observations nonterminals noiseP noiseQ t s).prior_std_devs,
        ∀ x ∈ l, p.min_std_dev ≤ x)
    ∧ (∀ l ∈ (step p actions observations nonterminals noiseP noiseQ t s).posterior_std_devs,
        ∀ x ∈ l, p.min_std_dev ≤ x) := by
  have key : ∀ raw : List ℝ,
      ∀ x ∈ raw.map (fun y => p.softplus y + p.min_std_dev), p.min_std_dev ≤ x := by
    intro raw x hx
    obtain ⟨y, _, rfl⟩ := List.mem_map.mp hx
    rw [hp]
    have := softplusR_nonneg y
    linarith
  cases observations with
  | none =>
      refine ⟨?_, ?_⟩
      · intro l hl
        simp only [step] at hl
        rcases List.mem_append.mp hl with hl | hl
        · exact h1 l hl
        · rw [List.mem_singleton.mp hl]
          exact key _
      · intro l hl
        simp only [step] at hl
        rcases List.mem_append.mp hl with hl | hl
        · exact h2 l hl
        · rw [List.mem_singleton.mp hl]
          intro x hx
          exact absurd hx (List.not_mem_nil x)
  | some o =>
      refine ⟨?_, ?_⟩
      · intro l hl
        simp only [step] at hl
        rcases List.mem_append.mp hl with hl | hl
        · exact h1 l hl
        · rw [List.mem_singleton.mp hl]
          exact key _
      · intro l hl
        simp only [step] at hl
        rcases List.mem_append.mp hl with hl | hl
        · exact h2 l hl
        · rw [List.mem_singleton.mp hl]
          exact key _

/-- Every prior and posterior stddev row produced by the rollout loop
respects the configured floor `min_std_dev`. -/
theorem rolloutLists_stdFloor (p : TMParams ℝ) (hp : p.softplus = softplusR)
    (prev_state : List ℝ) (actions : List (List ℝ)) (prev_belief : List ℝ)
    (observations : Option (Nat → List ℝ)) (nonterminals : Option (Nat → ℝ))
    (noiseP noiseQ : Nat → List ℝ) :
    (∀ l ∈ (rolloutLists p prev_state actions prev_belief observations nonterminals noiseP noiseQ).prior_std_devs,
        ∀ x ∈ l, p.min_std_dev ≤ x)
    ∧ (∀ l ∈ (rolloutLists p prev_state actions prev_belief observations nonterminals noiseP noiseQ).posterior_std_devs,
        ∀ x ∈ l, p.min_std_dev ≤ x) := by
  unfold rolloutLists
  refine runLoop_inv
    (fun s => (∀ l ∈ s.prior_std_devs, ∀ x ∈ l, p.min_std_dev ≤ x)
      ∧ (∀ l ∈ s.posterior_std_devs, ∀ x ∈ l, p.min_std_dev ≤ x)) _
    (fun t s hs => step_stdFloor p hp actions observations nonterminals noiseP noiseQ
      t s hs.1 hs.2) _ _ ?_
  constructor <;>
    · intro l hl
      simp only [initState, List.mem_singleton] at hl
      rw [hl]
      intro x hx
      exact absurd hx (List.not_mem_nil x)

/-- The parameters of `ActionModel`: the five linear layers, the activation,
and the configuration scalars of `ActionModel.__init__`. -/
structure ActionModelParams where
  fc1 : List ℝ → List ℝ
  fc2 : List ℝ → List ℝ
  fc3 : List ℝ → List ℝ
  fc4 : List ℝ → List ℝ
  fc5 : List ℝ → List ℝ
  act_fn : List ℝ → List ℝ
  mean_scale : ℝ
  min_std : ℝ
  init_std : ℝ

/-- Line 230 of the source: `raw_init_std = np.log(np.exp(init_std) - 1)`,
the inverse-softplus initialization bias, a function of configuration only. -/
def raw_init_std (init_std : ℝ) : ℝ := Real.log (Real.exp init_std - 1)

/-- Line 237 of the source applied to one raw-scale component:
`std = F.softplus(std + raw_init_std) + min_std`. -/
def policyStd (ap : ActionModelParams) (raw : ℝ) : ℝ :=
  softplusR (raw + raw_init_std ap.init_std) + ap.min_std

/-- Lines 231-235 of the source: the feed-forward backbone producing the raw
(mean, scale) halves via `torch.chunk(fc5(...), 2, dim=1)`. -/
def policyRawParams (ap : ActionModelParams) (belief state : List ℝ) :
    List ℝ × List ℝ :=
  chunk2 (ap.fc5 (ap.act_fn (ap.fc4 (ap.act_fn (ap.fc3 (ap.act_fn (ap.fc2
    (ap.act_fn (ap.fc1 (belief ++ state))))))))))

/-- The squashed policy distribution built on lines 238-244: a diagonal
Gaussian with the bounded mean and floored stddev, wrapped in a tanh
bijection and an `Independent(…, 1)` joint-event reduction.  The transform
chain carries no parameters of its own, so the distribution object is
determined by the base mean and stddev rows. -/
structure TanhNormal where
  mean : List ℝ
  std : List ℝ

/-- `SampleDist.__init__` (lines 253-255): stores the wrapped distribution
and the sample count; performs no validation whatsoever. -/
structure SampleDistObj (D : Type) where
  _dist : D
  _samples : Int

/-- The `SampleDist` constructor: `self._dist = dist; self._samples = samples`
(the source's default for `samples` is 100). -/
def SampleDist.init {D : Type} (dist : D) (samples : Int) : SampleDistObj D :=
  { _dist := dist, _samples := samples }

/-- `ActionModel.forward` (lines 226-246): bound the mean with
`mean_scale * tanh(mean / mean_scale)`, floor the stddev with
`softplus(raw + raw_init_std) + min_std`, and wrap the resulting squashed
Gaussian in a `SampleDist` with the default 100 samples.  The `training`
argument appears in the Python signature but in no expression of the body. -/
def ActionModel.forward (ap : ActionModelParams) (belief state : List ℝ)
    (training : Bool) : SampleDistObj TanhNormal :=
  let raw := policyRawParams ap belief state
  let mean := raw.1.map (fun m => ap.mean_scale * Real.tanh (m / ap.mean_scale))
  let std := raw.2.map (policyStd ap)
  SampleDist.init { mean := mean, std := std } 100

/-- A concrete transition model over `ℝ` whose softplus is the real
softplus, used to instantiate floor statements. -/
def tmReal : TMParams ℝ :=
  { fc_embed_state_action := fun _ => [0]
    rnn := fun _ _ => [0]
    fc_embed_belief_prior := fun _ => [0]
    fc_state_prior := fun _ => [0, 0]
    fc_embed_belief_posterior := fun _ => [0]
    fc_state_posterior := fun _ => [0, 0]
    act_fn := fun l => l
    softplus := softplusR
    min_std_dev := 1 / 10 }

/-- A concrete action model with the source's default configuration
`mean_scale = 5`, `min_std = 1e-4`, `init_std = 5`. -/
def apReal : ActionModelParams :=
  { fc1 := fun _ => [0]
    fc2 := fun _ => [0]
    fc3 := fun _ => [0]
    fc4 := fun _ => [0]
    fc5 := fun _ => [0, 0]
    act_fn := fun l => l
    mean_scale := 5
    min_std := 1 / 10000
    init_std := 5 }

/-- Claim C4: with the real softplus, every stddev component produced —
prior and posterior stddev rows of the rollout (floor `min_std_dev`) and
the policy stddev of the squashed action distribution (floor `min_std`) —
is at least its configured floor, for every configuration and input. -/
theorem claim_C4 (p : TMParams ℝ) (hp : p.softplus = softplusR)
    (prev_state : List ℝ) (actions : List (List ℝ)) (prev_belief : List ℝ)
    (observations : Option (Nat → List ℝ)) (nonterminals : Option (Nat → ℝ))
    (noiseP noiseQ : Nat → List ℝ) (ap : ActionModelParams)
    (belief state : List ℝ) (training : Bool) :
    (∀ l ∈ (rolloutLists p prev_state actions prev_belief observations nonterminals noiseP noiseQ).prior_std_devs,
        ∀ x ∈ l, p.min_std_dev ≤ x)
    ∧ (∀ l ∈ (rolloutLists p prev_state actions prev_belief observations nonterminals noiseP noiseQ).posterior_std_devs,
        ∀ x ∈ l, p.min_std_dev ≤ x)
    ∧ (∀ x ∈ (ActionModel.forward ap belief state training)._dist.std, ap.min_std ≤ x) := by
  have hroll := rolloutLists_stdFloor p hp prev_state actions prev_belief
    observations nonterminals noiseP noiseQ
  refine ⟨hroll.1, hroll.2, ?_⟩
  intro x hx
  simp only [ActionModel.forward, SampleDist.init] at hx
  obtain ⟨y, _, rfl⟩ := List.mem_map.mp hx
  unfold policyStd
  have := softplusR_nonneg (y + raw_init_std ap.init_std)
  linarith

/-- Claim C4 witness: a concrete rollout over `ℝ` with floor `1/10` and the
default action-model configuration with floor `1/10000`. -/
theorem claim_C4_witness :
    (∀ l ∈ (rolloutLists tmReal [0] [[0]] [0] none none (fun _ => [0]) (fun _ => [0])).prior_std_devs,
        ∀ x ∈ l, tmReal.min_std_dev ≤ x)
    ∧ (∀ l ∈ (rolloutLists tmReal [0] [[0]] [0] none none (fun _ => [0]) (fun _ => [0])).posterior_std_devs,
        ∀ x ∈ l, tmReal.min_std_dev ≤ x)
    ∧ (∀ x ∈ (ActionModel.forward apReal [0] [0] true)._dist.std, apReal.min_std ≤ x) :=
  claim_C4 tmReal rfl [0] [[0]] [0] none none (fun _ => [0]) (fun _ => [0])
    apReal [0] [0] true

/-- Claim C7: the policy stddev equals
`softplus(raw_scale + log(exp(init_std) - 1)) + min_std`, and at raw scale 0
with positive `init_std` the additive bias exactly inverts the softplus, so
the stddev is exactly `init_std + min_std`. -/
theorem claim_C7 (ap : ActionModelParams) (belief state : List ℝ)
    (training : Bool) (h : 0 < ap.init_std) :
    (ActionModel.forward ap belief state training)._dist.std
        = (policyRawParams ap belief state).2.map (policyStd ap)
    ∧ policyStd ap 0 = ap.init_std + ap.min_std := by
  refine ⟨rfl, ?_⟩
  unfold policyStd raw_init_std softplusR
  have h1 : (0 : ℝ) < Real.exp ap.init_std - 1 := by
    have h2 := Real.add_one_le_exp ap.init_std
    linarith
  rw [zero_add, Real.exp_log h1,
    show (1 : ℝ) + (Real.exp ap.init_std - 1) = Real.exp ap.init_std by ring,
    Real.log_exp]

/-- Claim C7 witness: with the source defaults `init_std = 5`,
`min_std = 1e-4`, a zero raw scale yields stddev exactly `5 + 1e-4`. -/
theorem claim_C7_witness :
    (ActionModel.forward apReal [0] [0] true)._dist.std
        = (policyRawParams apReal [0] [0]).2.map (policyStd apReal)
    ∧ policyStd apReal 0 = 5 + 1 / 10000 :=
  claim_C7 apReal [0] [0] true (by norm_num [apReal])

/-- Claim C10: the action-distribution construction ignores its `training`
flag — for identical inputs and parameters the returned distribution with
`training = true` is identical to the one with `training = false`. -/
theorem claim_C10 (ap : ActionModelParams) (belief state : List ℝ) :
    ActionModel.forward ap belief state true
      = ActionModel.forward ap belief state false := rfl

/-- Claim C3 (counterexample): constructing a `SampleDist` with sample count
0 does not fail fast — it returns normally, storing the wrapped distribution
and the non-positive count exactly as any other construction would. -/
theorem claim_C3_counterexample :
    SampleDist.init (0 : Int) 0 = { _dist := 0, _samples := 0 } := rfl

end

/-- `SampleDist.__getattr__` (lines 261-262): any capability other than the
three Monte-Carlo statistics is answered by looking it up on the wrapped
distribution — the query is forwarded unchanged to `self._dist`. -/
def SampleDist.getattr {D β : Type} (sd : SampleDistObj D) (query : D → β) : β :=
  query sd._dist

/-- `SampleDist.mean` (lines 264-268): given the drawn samples (shape
`samples × batch × features`, as produced by `rsample` on the expanded
wrapped distribution), return `torch.mean(sample, 0)` — the elementwise
average over the sample axis. -/
def SampleDist.mean {α : Type} [Field α] (sample : List (List (List α))) :
    List (List α) :=
  let batch_size := (sample.getD 0 []).length
  let feature_size := ((sample.getD 0 []).getD 0 []).length
  (List.range batch_size).map (fun b => (List.range feature_size).map (fun f =>
    (sample.map (fun row => (row.getD b []).getD f 0)).sum / (sample.length : α)))

/-- `SampleDist.entropy` (lines 280-284): given the log-densities of the
drawn samples (shape `samples × batch`, as produced by `log_prob`), return
`-torch.mean(logprob, 0)` — the negated average over the sample axis. -/
def SampleDist.entropy {α : Type} [Field α] (logprob : List (List α)) :
    List α :=
  let batch_size := (logprob.getD 0 []).length
  (List.range batch_size).map (fun b =>
    -((logprob.map (fun row => row.getD b 0)).sum / (logprob.length : α)))

/-- `torch.argmax` along the sample axis for one batch element: the index of
the first maximal value of the list (`d` pads out-of-range reads and is
irrelevant on well-shaped input). -/
def torchArgmax {α : Type} [LinearOrder α] (d : α) : List α → Nat
  | [] => 0
  | x :: xs =>
    match xs with
    | [] => 0
    | _ :: _ =>
      let j := torchArgmax d xs
      if x < xs.getD j d then j + 1 else 0

/-- Unfolding of the argmax on a list of at least two entries. -/
theorem torchArgmax_cons_cons {α : Type} [LinearOrder α] (d x y : α) (ys : List α) :
    torchArgmax d (x :: y :: ys)
      = if x < (y :: ys).getD (torchArgmax d (y :: ys)) d
          then torchArgmax d (y :: ys) + 1 else 0 := rfl

/-- The argmax of a non-empty list is a valid index. -/
theorem torchArgmax_lt {α : Type} [LinearOrder α] (d : α) :
    ∀ l : List α, l ≠ [] → torchArgmax d l < l.length := by
  intro l
  induction l with
  | nil => intro h; exact absurd rfl h
  | cons x xs ih =>
      intro _
      cases xs with
      | nil => simp [torchArgmax]
      | cons y ys =>
          have hlt := ih (by simp)
          rw [torchArgmax_cons_cons]
          by_cases hc : x < (y :: ys).getD (torchArgmax d (y :: ys)) d
          · rw [if_pos hc]
            simp only [List.length_cons] at *
            omega
          · rw [if_neg hc]
            simp only [List.length_cons]
            omega

/-- The value at the argmax dominates every entry of the list. -/
theorem torchArgmax_max {α : Type} [LinearOrder α] (d : α) :
    ∀ (l : List α) (j : Nat), j < l.length →
      l.getD j d ≤ l.getD (torchArgmax d l) d := by
  intro l
  induction l with
  | nil => intro j hj; simp at hj
  | cons x xs ih =>
      intro j hj
      cases xs with
      | nil =>
          simp only [List.length_cons, List.length_nil] at hj
          have hj0 : j = 0 := by omega
          subst hj0
          simp [torchArgmax]
      | cons y ys =>
          rw [torchArgmax_cons_cons]
          by_cases hc : x < (y :: ys).getD (torchArgmax d (y :: ys)) d
          · rw [if_pos hc]
            rw [List.getD_cons_succ]
            cases j with
            | zero => rw [List.getD_cons_zero]; exact le_of_lt hc
            | succ k =>
                rw [List.getD_cons_succ]
                exact ih k (by simp only [List.length_cons] at hj ⊢; omega)
          · rw [if_neg hc]
            rw [List.getD_cons_zero]
            push_neg at hc
            cases j with
            | zero => rw [List.getD_cons_zero]
            | succ k =>
                rw [List.getD_cons_succ]
                exact le_trans (ih k (by simp only [List.length_cons] at hj ⊢; omega)) hc

/-- `SampleDist.mode` (lines 270-278): given the drawn samples (shape
`samples × batch × features`, as produced by `rsample` on the expanded
distribution) and their log-densities (shape `samples × batch`, as produced
by `log_prob`), take the per-batch-element argmax of the log-density along
the sample axis, and gather that sample's whole feature row. -/
def SampleDist.mode {α : Type} [LinearOrder α] (d : α)
    (sample : List (List (List α))) (logprob : List (List α)) : List (List α) :=
  let batch_size := (sample.getD 0 []).length
  (List.range batch_size).map (fun b =>
    (sample.getD (torchArgmax d (logprob.map (fun row => row.getD b d))) []).getD b [])

/-- Claim C8: for every well-shaped call, the row `SampleDist.mode` returns
for a batch element is one of the sample rows actually drawn in that call —
the one whose log-density is maximal across the sample axis — never an
interpolation or a value outside the drawn set. -/
theorem claim_C8 {α : Type} [LinearOrder α] (d : α)
    (sample : List (List (List α))) (logprob : List (List α)) (S B : Nat)
    (hS : 0 < S) (hsample : sample.length = S) (hlog : logprob.length = S)
    (hB : (sample.getD 0 []).length = B) (b : Nat) (hb : b < B) :
    ∃ i, i < S
      ∧ (SampleDist.mode d sample logprob).getD b [] = (sample.getD i []).getD b []
      ∧ ∀ j, j < S →
          (logprob.getD j []).getD b d ≤ (logprob.getD i []).getD b d := by
  have hcl : (logprob.map (fun row => row.getD b d)).length = S := by
    simp [hlog]
  have hcne : logprob.map (fun row => row.getD b d) ≠ [] :=
    List.ne_nil_of_length_pos (by omega)
  have hcD : ∀ j, j < S →
      (logprob.map (fun row => row.getD b d)).getD j d
        = (logprob.getD j []).getD b d := by
    intro j hj
    rw [List.getD_eq_getElem _ _ (by omega),
      List.getD_eq_getElem _ _ (show j < logprob.length by omega),
      List.getElem_map]
  refine ⟨torchArgmax d (logprob.map (fun row => row.getD b d)), ?_, ?_, ?_⟩
  · have := torchArgmax_lt d (logprob.map (fun row => row.getD b d)) hcne
    omega
  · show (SampleDist.mode d sample logprob).getD b [] = _
    unfold SampleDist.mode
    rw [List.getD_eq_getElem _ _ (by simp only [List.length_map, List.length_range]; omega),
      List.getElem_map, List.getElem_range]
  · intro j hj
    have hmax := torchArgmax_max d (logprob.map (fun row => row.getD b d)) j (by omega)
    rw [hcD j hj] at hmax
    rw [hcD (torchArgmax d (logprob.map (fun row => row.getD b d)))
      (by have := torchArgmax_lt d (logprob.map (fun row => row.getD b d)) hcne; omega)] at hmax
    exact hmax

/-- Claim C8 witness: two drawn samples, one batch element; the mode picks
the drawn row with the larger log-density. -/
theorem claim_C8_witness :
    ∃ i, i < 2
      ∧ (SampleDist.mode (0 : Int) [[[1]], [[2]]] [[5], [7]]).getD 0 []
          = ([[[1]], [[2]]].getD i []).getD 0 []
      ∧ ∀ j, j < 2 →
          (([[5], [7]] : List (List Int)).getD j []).getD 0 0
            ≤ (([[5], [7]] : List (List Int)).getD i []).getD 0 0 :=
  claim_C8 (0 : Int) [[[1]], [[2]]] [[5], [7]] 2 1 (by decide) rfl rfl rfl 0 (by decide)

/-- Claim C3 (amended): the `SampleDist` constructor performs no validation:
every sample count — non-positive ones included — is accepted and stored
unchanged alongside the wrapped distribution, with no data-dependent
computation at construction time; and for positive sample counts
`SampleDist` introduces no failure modes beyond those of the wrapped
distribution: given the results the wrapped distribution's `expand` /
`rsample` / `log_prob` produced, `mean` and `entropy` are total elementwise
averages yielding one result row per batch element, `mode` yields one row
per batch element and gathers only at a drawn sample index, and every other
capability query is forwarded unchanged to the wrapped distribution. -/
theorem claim_C3 {D β α : Type} [LinearOrderedField α] (dist : D)
    (samples : Int) (query : D → β) (d : α)
    (sample : List (List (List α))) (logprob : List (List α)) :
    (SampleDist.init dist samples)._dist = dist
    ∧ (SampleDist.init dist samples)._samples = samples
    ∧ SampleDist.getattr (SampleDist.init dist samples) query = query dist
    ∧ (SampleDist.mean sample).length = (sample.getD 0 []).length
    ∧ (∀ r ∈ SampleDist.mean sample, r.length = ((sample.getD 0 []).getD 0 []).length)
    ∧ (SampleDist.entropy logprob).length = (logprob.getD 0 []).length
    ∧ (SampleDist.mode d sample logprob).length = (sample.getD 0 []).length
    ∧ (0 < sample.length → logprob.length = sample.length → ∀ b : Nat,
        sample.getD (torchArgmax d (logprob.map (fun row => row.getD b d))) [] ∈ sample) := by
  refine ⟨rfl, rfl, rfl, ?_, ?_, ?_, ?_, ?_⟩
  · simp [SampleDist.mean]
  · intro r hr
    simp only [SampleDist.mean, List.mem_map] at hr
    obtain ⟨b, _, rfl⟩ := hr
    simp
  · simp [SampleDist.entropy]
  · simp [SampleDist.mode]
  · intro hS hSL b
    have hlt := torchArgmax_lt d (logprob.map (fun row => row.getD b d))
      (List.ne_nil_of_length_pos (by simp only [List.length_map]; omega))
    simp only [List.length_map] at hlt
    have hi : torchArgmax d (logprob.map (fun row => row.getD b d)) < sample.length := by
      omega
    rw [List.getD_eq_getElem _ _ hi]
    exact List.getElem_mem hi

/-- Claim C3 witness: a concrete construction with the non-positive sample
count `-1` succeeds and stores it; on two concretely drawn samples with one
batch element, `mean`, `entropy` and `mode` each yield one row, the mode
gather stays inside the drawn set, and a capability query is forwarded to
the wrapped value. -/
theorem claim_C3_witness :
    (SampleDist.init (7 : Int) (-1))._dist = 7
    ∧ (SampleDist.init (7 : Int) (-1))._samples = -1
    ∧ SampleDist.getattr (SampleDist.init (7 : Int) (-1)) (fun x => x + 1) = 8
    ∧ (SampleDist.mean ([[[1]], [[3]]] : List (List (List ℚ)))).length = 1
    ∧ (SampleDist.entropy ([[2], [4]] : List (List ℚ))).length = 1
    ∧ (SampleDist.mode (0 : ℚ) [[[1]], [[3]]] [[2], [4]]).length = 1
    ∧ ([[[1]], [[3]]] : List (List (List ℚ))).getD
        (torchArgmax (0 : ℚ) (([[2], [4]] : List (List ℚ)).map (fun row => row.getD 0 0))) []
        ∈ ([[[1]], [[3]]] : List (List (List ℚ))) := by
  have h := claim_C3 (7 : Int) (-1) (fun x => x + 1) (0 : ℚ) [[[1]], [[3]]] [[2], [4]]
  exact ⟨h.1, h.2.1, h.2.2.1, h.2.2.2.1, h.2.2.2.2.2.1, h.2.2.2.2.2.2.1,
    h.2.2.2.2.2.2.2 (by decide) rfl 0⟩

end Models
